import Mathlib

/-!
A shallow embedding of the fabparse parser-combinator library.

Modelling conventions, fixed once for the whole development:

* A Rust cursor `&mut &'a I` (a borrowed suffix of the original input) is
  modelled by `Slice α`: the list of remaining items together with `off`,
  the numeric offset of the suffix's base inside the original input.
  The base pointer of a suffix (used by `loc` in `repeat.rs` and stored in
  errors) is strictly monotone in the number of consumed items, so it is
  modelled by `off` with base address 0 and unit item width.  For `&str`
  inputs the offsets coincide with byte offsets whenever the input is
  ASCII, which is the case in every concrete scenario treated here.
* A parser `Parser<'a, I, O, E>::fab(&self, input: &mut &'a I) -> Result<O, E>`
  becomes `ParserFn α E O := Slice α → Except E O × Slice α`: the returned
  pair carries the `Result` and the cursor left behind by the call.
* The macro-generated tuple/alt/permutation implementations (arities 1..11)
  expand, for every arity, to the same loop over their fields in order;
  they are modelled by functions over a `List` of parsers with a common
  output type.  The cursor and error behaviour is independent of the
  output types, so nothing relevant to the claims is lost.
* External causes (`Box<dyn Error>`) are observable only through `Display`;
  they are modelled by the `String` they display as.
* `usize::MAX` is modelled by `2^64 - 1` (64-bit target).
-/

/-- The `ParserType` enum of `lib.rs`: the closed taxonomy of parser kinds
recorded in errors. -/
inductive ParserType where
  | Tag
  | Alt
  | Try
  | Map
  | TryMap
  | Function
  | TakeNot
  | Repeat
  | RepeatIter
  | Sequence
  | Permutation
deriving DecidableEq, Repr

/-- A borrowed suffix of the original input: `off` is the offset of its base
inside the original input (the model of the suffix's base pointer), `data`
the remaining items. -/
structure Slice (α : Type) where
  off : Nat
  data : List α
deriving DecidableEq, Repr

/-- Advance a cursor by `k` consumed items. -/
def Slice.advance {α : Type} (s : Slice α) (k : Nat) : Slice α :=
  ⟨s.off + k, s.data.drop k⟩

/-- model of `Parser::fab`: the final cursor is returned alongside the
`Result` (the Rust call mutates the cursor in place). -/
abbrev ParserFn (α E O : Type) : Type := Slice α → Except E O × Slice α

/-- The `ParserError` trait of `error.rs`.  Locations are the stored cursor
base pointers (modelled as offsets); causes are their `Display` strings.
`add_context` defaults to a no-op and `get_loc` to `none`, as in the source. -/
class ParserError (E : Type) where
  from_parser_error : Nat → ParserType → E
  from_external_error : Nat → ParserType → String → E
  add_context : E → Nat → ParserType → E := fun e _ _ => e
  get_loc : E → Option Nat := fun _ => none

/-- One `(location, kind)` frame of a rich error (`LocatedError` in
`error.rs`). -/
structure LocatedError where
  location : Nat
  parser_type : ParserType
deriving DecidableEq, Repr

/-- The rich error type `FabError`: a stack of frames (index 0 is the frame
the error was created with) plus an optional external cause. -/
structure FabError where
  stack : List LocatedError
  cause : Option String
deriving DecidableEq, Repr

/-- `FabError::from_parser_error`: a single frame, no cause. -/
def FabError.from_parser_error (loc : Nat) (k : ParserType) : FabError :=
  ⟨[⟨loc, k⟩], none⟩

/-- `FabError::from_external_error`: a single frame plus the boxed cause. -/
def FabError.from_external_error (loc : Nat) (k : ParserType) (cause : String) : FabError :=
  ⟨[⟨loc, k⟩], some cause⟩

/-- `FabError::add_context`: push a frame onto the back of the stack. -/
def FabError.add_context (e : FabError) (loc : Nat) (k : ParserType) : FabError :=
  ⟨e.stack ++ [⟨loc, k⟩], e.cause⟩

/-- `FabError::get_loc`: the location of the frame at index 0 (the frame the
error was created with; the stack is never empty for a constructed error). -/
def FabError.get_loc (e : FabError) : Option Nat :=
  e.stack.head?.map (fun f => f.location)

instance : ParserError FabError :=
  ⟨FabError.from_parser_error, FabError.from_external_error,
   FabError.add_context, FabError.get_loc⟩

/-- The trivial error `NoContextFabError`: carries no information. -/
structure NoContextFabError where
deriving DecidableEq, Repr

instance : ParserError NoContextFabError where
  from_parser_error _ _ := ⟨⟩
  from_external_error _ _ _ := ⟨⟩

/-- The view a trace rendering exposes of a rich error: the `(offset, kind)`
pairs in print order (`print_trace_window` walks the stack from the back),
plus the cause line's text when present.  Offsets are relative to the
original input's base, which is 0 in this model. -/
def FabError.traceView (e : FabError) : List (Nat × ParserType) × Option String :=
  (e.stack.reverse.map (fun f => (f.location, f.parser_type)), e.cause)

/-- `CharStrParser` / `ItemSliceParser`: the item-literal primitive.  Succeed
and consume one item iff the front item equals the literal. -/
def itemTag {α E : Type} [DecidableEq α] [ParserError E] (x : α) : ParserFn α E α :=
  fun s =>
    match s.data with
    | y :: rest =>
      if y = x then (Except.ok x, ⟨s.off + 1, rest⟩)
      else (Except.error (ParserError.from_parser_error s.off ParserType.Tag), s)
    | [] => (Except.error (ParserError.from_parser_error s.off ParserType.Tag), s)

/-- `SliceSliceParser` (and the fixed-array literal, equivalent to its slice
view): the sub-sequence literal primitive. -/
def sliceTag {α E : Type} [DecidableEq α] [ParserError E] (tag : List α) : ParserFn α E (List α) :=
  fun s =>
    if tag.length ≤ s.data.length then
      if s.data.take tag.length = tag then
        (Except.ok (s.data.take tag.length), s.advance tag.length)
      else (Except.error (ParserError.from_parser_error s.off ParserType.Tag), s)
    else (Except.error (ParserError.from_parser_error s.off ParserType.Tag), s)

/-- `FnBoolStrParser` / `FnBoolSliceParser`: the predicate-function
primitive. -/
def predTag {α E : Type} [ParserError E] (f : α → Bool) : ParserFn α E α :=
  fun s =>
    match s.data with
    | y :: rest =>
      if f y then (Except.ok y, ⟨s.off + 1, rest⟩)
      else (Except.error (ParserError.from_parser_error s.off ParserType.Tag), s)
    | [] => (Except.error (ParserError.from_parser_error s.off ParserType.Tag), s)

/-- `CharRangeStrParser` / `RangeSliceParser`: the range primitive.  The
polymorphic `RangeBounds::contains` test is abstracted as the boolean
membership function `mem`; the cursor and error behaviour is that of the
source impls. -/
def rangeTag {α E : Type} [ParserError E] (mem : α → Bool) : ParserFn α E α :=
  fun s =>
    match s.data with
    | y :: rest =>
      if mem y then (Except.ok y, ⟨s.off + 1, rest⟩)
      else (Except.error (ParserError.from_parser_error s.off ParserType.Tag), s)
    | [] => (Except.error (ParserError.from_parser_error s.off ParserType.Tag), s)

/-- `FnOptionStrParser` / `FnOptionSliceParser`: the `Option`-returning
function primitive. -/
def optionTag {α β E : Type} [ParserError E] (f : α → Option β) : ParserFn α E β :=
  fun s =>
    match s.data with
    | y :: rest =>
      match f y with
      | some v => (Except.ok v, ⟨s.off + 1, rest⟩)
      | none => (Except.error (ParserError.from_parser_error s.off ParserType.Tag), s)
    | [] => (Except.error (ParserError.from_parser_error s.off ParserType.Tag), s)

/-- `FnResultStrParser` / `FnResultSliceParser`: the `Result`-returning
function primitive; an `Err` surfaces as a `Tag` error with the external
cause attached. -/
def resultTag {α β E : Type} [ParserError E] (f : α → Except String β) : ParserFn α E β :=
  fun s =>
    match s.data with
    | y :: rest =>
      match f y with
      | Except.ok v => (Except.ok v, ⟨s.off + 1, rest⟩)
      | Except.error c => (Except.error (ParserError.from_external_error s.off ParserType.Tag c), s)
    | [] => (Except.error (ParserError.from_parser_error s.off ParserType.Tag), s)

/-- `Take(n)`: consume the first `n` items and return them; fail with `Tag`
(cursor untouched) when fewer than `n` items remain. -/
def takeTag {α E : Type} [ParserError E] (n : Nat) : ParserFn α E (List α) :=
  fun s =>
    if n ≤ s.data.length then (Except.ok (s.data.take n), s.advance n)
    else (Except.error (ParserError.from_parser_error s.off ParserType.Tag), s)

/-- `ParserFunction`: a user function is itself a parser; the impl rewinds
the cursor to the checkpoint when the function fails. -/
def funcTag {α E O : Type} (f : ParserFn α E O) : ParserFn α E O :=
  fun s =>
    match f s with
    | (Except.ok v, s') => (Except.ok v, s')
    | (Except.error e, _) => (Except.error e, s)

/-- `ParserMap::fab`: apply `f` to the output on success; on failure push a
`Map` context frame onto the child's error at the cursor the child left. -/
def mapFab {α E M O : Type} [ParserError E] (p : ParserFn α E M) (f : M → O) : ParserFn α E O :=
  fun s =>
    match p s with
    | (Except.ok v, s') => (Except.ok (f v), s')
    | (Except.error e, s') => (Except.error (ParserError.add_context e s'.off ParserType.Map), s')

/-- `ParserTryMap::fab` (the `Option`-returning form): on `none` the cursor
is restored to the checkpoint and a `TryMap` error is built there; a child
failure gets a `Map` context frame at the checkpoint. -/
def tryMapOptionFab {α E M O : Type} [ParserError E]
    (p : ParserFn α E M) (f : M → Option O) : ParserFn α E O :=
  fun s =>
    match p s with
    | (Except.ok v, s') =>
      match f v with
      | some o => (Except.ok o, s')
      | none => (Except.error (ParserError.from_parser_error s.off ParserType.TryMap), s)
    | (Except.error e, s') => (Except.error (ParserError.add_context e s.off ParserType.Map), s')

/-- `ParserTryMap::fab` (the `Result`-returning form). -/
def tryMapResultFab {α E M O : Type} [ParserError E]
    (p : ParserFn α E M) (f : M → Except String O) : ParserFn α E O :=
  fun s =>
    match p s with
    | (Except.ok v, s') =>
      match f v with
      | Except.ok o => (Except.ok o, s')
      | Except.error c => (Except.error (ParserError.from_external_error s.off ParserType.TryMap c), s)
    | (Except.error e, s') => (Except.error (ParserError.add_context e s.off ParserType.Map), s')

/-- `Value::fab`: replace the output with `value` on success; on failure push
a `Map` context frame onto the child's error at the cursor the child left. -/
def valueFab {α E O V : Type} [ParserError E] (p : ParserFn α E O) (v : V) : ParserFn α E V :=
  fun s =>
    match p s with
    | (Except.ok _, s') => (Except.ok v, s')
    | (Except.error e, s') => (Except.error (ParserError.add_context e s'.off ParserType.Map), s')

/-- `Opt::fab`: a success becomes `some`, a failure becomes `ok none` (the
impl itself never touches the cursor). -/
def optFab {α E O : Type} (p : ParserFn α E O) : ParserFn α E (Option O) :=
  fun s =>
    match p s with
    | (Except.ok v, s') => (Except.ok (some v), s')
    | (Except.error _, s') => (Except.ok none, s')

/-- `TakeNot::fab`: fail with `TakeNot` at the checkpoint when the child
succeeds; when the child fails, restore the checkpoint and consume exactly
one item via `split_front` (failing with `TakeNot` on empty input). -/
def takeNotFab {α E O : Type} [ParserError E] (p : ParserFn α E O) : ParserFn α E α :=
  fun s =>
    match p s with
    | (Except.ok _, _) => (Except.error (ParserError.from_parser_error s.off ParserType.TakeNot), s)
    | (Except.error _, _) =>
      match s.data with
      | y :: rest => (Except.ok y, ⟨s.off + 1, rest⟩)
      | [] => (Except.error (ParserError.from_parser_error s.off ParserType.TakeNot), s)

/-- The loop body of the macro-generated tuple (`sequence_impl` in
`branch.rs`): run the fields left to right threading the cursor; on the
first failure return that error with the cursor rewound to `startloc`. -/
def seqGo {α E O : Type} (startloc : Slice α) :
    List (ParserFn α E O) → Slice α → Except E (List O) × Slice α
  | [], s => (Except.ok [], s)
  | p :: ps, s =>
    match p s with
    | (Except.ok v, s') =>
      match seqGo startloc ps s' with
      | (Except.ok vs, s'') => (Except.ok (v :: vs), s'')
      | (Except.error e, s'') => (Except.error e, s'')
    | (Except.error e, _) => (Except.error e, startloc)

/-- A tuple of parsers as a parser (`sequence_impl`, arities 1..11, modelled
over a list with a common output type). -/
def seqFab {α E O : Type} (ps : List (ParserFn α E O)) : ParserFn α E (List O) :=
  fun s => seqGo s ps s

/-- The arity-2 instance of `sequence_impl` with heterogeneous outputs
(`Seq2`), needed for the concrete `(letter, digit)` scenario. -/
def seq2Fab {α E O₁ O₂ : Type} (p₁ : ParserFn α E O₁) (p₂ : ParserFn α E O₂) :
    ParserFn α E (O₁ × O₂) :=
  fun s =>
    match p₁ s with
    | (Except.ok v₁, s₁) =>
      match p₂ s₁ with
      | (Except.ok v₂, s₂) => (Except.ok (v₁, v₂), s₂)
      | (Except.error e, _) => (Except.error e, s)
    | (Except.error e, _) => (Except.error e, s)

/-- The furthest-progress bookkeeping of `alt_impl` / `permutation_impl`:
a located error replaces the best pair when its location is `>=` the best
location (or none is recorded yet); an unlocated error replaces only the
best error. -/
def updateBest {E : Type} [ParserError E] (err : E) (best : Option Nat × Option E) :
    Option Nat × Option E :=
  match ParserError.get_loc err with
  | some loc =>
    match best.1 with
    | none => (some loc, some err)
    | some val => if val ≤ loc then (some loc, some err) else best
  | none => (best.1, some err)

/-- The loop body of `alt_impl`: try each branch on the entry cursor; return
the first success as is; otherwise fold the errors through `updateBest` and
fail with the best error, cursor restored to the entry.  The `getD` default
models the `expect` on the path that is unreachable for the generated
arities (1..11). -/
def altGo {α E O : Type} [ParserError E] (startloc : Slice α)
    (best : Option Nat × Option E) :
    List (ParserFn α E O) → Except E O × Slice α
  | [] =>
    (Except.error (best.2.getD (ParserError.from_parser_error startloc.off ParserType.Alt)),
     startloc)
  | p :: ps =>
    match p startloc with
    | (Except.ok v, s') => (Except.ok v, s')
    | (Except.error e, _) => altGo startloc (updateBest e best) ps

/-- `Alt::fab` (`alt_impl`, arities 1..11, modelled over a list). -/
def altFab {α E O : Type} [ParserError E] (ps : List (ParserFn α E O)) : ParserFn α E O :=
  fun s => altGo s (none, none) ps

/-- One scan pass of `permutation_impl`: walk the not-yet-succeeded parsers
in declared order, each run against the pass's start cursor.  The first
success yields the updated slot list and the new cursor (`Sum.inl`); if
every enabled parser fails, yield the folded best error (`Sum.inr`). -/
def permPass {α E O : Type} [ParserError E] (input : Slice α) :
    List (ParserFn α E O × Option O) → (Option Nat × Option E) →
    (List (ParserFn α E O × Option O) × Slice α) ⊕ (Option Nat × Option E)
  | [], best => Sum.inr best
  | (p, some v) :: rest, best =>
    match permPass input rest best with
    | Sum.inl (rest', s') => Sum.inl ((p, some v) :: rest', s')
    | Sum.inr best' => Sum.inr best'
  | (p, none) :: rest, best =>
    match p input with
    | (Except.ok v, s') => Sum.inl ((p, some v) :: rest, s')
    | (Except.error e, _) =>
      match permPass input rest (updateBest e best) with
      | Sum.inl (rest', s') => Sum.inl ((p, none) :: rest', s')
      | Sum.inr best' => Sum.inr best'

/-- The outer loop of `permutation_impl`: restart a scan pass after each
success (one slot is filled per pass, so the fuel `ps.length + 1` is never
exhausted in a run started by `permFab`; the fuel-0 branch restores the
entry cursor like every other failure exit).  When every slot is filled,
succeed with the outputs in declared order; when a whole pass fails,
restore the entry cursor and fail with the best error. -/
def permLoop {α E O : Type} [ParserError E] :
    Nat → List (ParserFn α E O × Option O) → Slice α → Slice α → Except E (List O) × Slice α
  | 0, _, _, outerStart =>
    (Except.error (ParserError.from_parser_error outerStart.off ParserType.Permutation),
     outerStart)
  | fuel + 1, prs, input, outerStart =>
    if prs.all (fun pr => pr.2.isSome) then
      (Except.ok (prs.filterMap (fun pr => pr.2)), input)
    else
      match permPass input prs (none, none) with
      | Sum.inl (prs', s') => permLoop fuel prs' s' outerStart
      | Sum.inr best =>
        (Except.error (best.2.getD (ParserError.from_parser_error outerStart.off ParserType.Permutation)),
         outerStart)

/-- `Permutation::fab` (`permutation_impl`, arities 1..11, modelled over a
list). -/
def permFab {α E O : Type} [ParserError E] (ps : List (ParserFn α E O)) : ParserFn α E (List O) :=
  fun s => permLoop (ps.length + 1) (ps.map (fun p => (p, (none : Option O)))) s s

/-- The repetition range `bounds: Range<usize>` of a `Repeat` parser
(`start` inclusive, `stop` exclusive). -/
structure RepBounds where
  start : Nat
  stop : Nat
deriving DecidableEq, Repr

/-- Model of `usize::MAX` on a 64-bit target (the default `fab_repeat`
upper bound). -/
def usizeMAX : Nat := 18446744073709551615

/-- A reducer as `Repeat` consumes it: the base accumulator, the
`TryReducer::try_reduce` operation (failure is observable only as the cause
string the error will carry) and `TryReducer::finalize`. -/
structure Reducer (α Acc AccOut O : Type) where
  acc : Acc
  tryReduce : Acc → O → Except String Acc
  finalize : Acc → Slice α → Slice α → AccOut

/-- The default `fab_repeat` reducer: push every output into a vector. -/
def vecRed {α O : Type} : Reducer α (List O) (List O) O :=
  ⟨[], fun a v => Except.ok (a ++ [v]), fun a _ _ => a⟩

/-- A counting reducer (`reduce(0, |n, _| *n += 1)`): its final accumulator
is the number of child outputs that were folded. -/
def cntRed {α O : Type} : Reducer α Nat Nat O :=
  ⟨0, fun a _ => Except.ok (a + 1), fun a _ _ => a⟩

/-- The loop of `Repeat::fab`.  Arguments after `orig` (the entry cursor):
fuel, accumulator `res`, `repetitions`, `last_location`, current cursor.
Each continuing iteration strictly shrinks the remaining data of a
well-behaved child, so the fuel `orig.data.length + 2` supplied by
`repeatFab` is never exhausted for such children; the fuel-0 branch stands
for the divergence a cursor-corrupting child would cause in the source and
restores the entry cursor. -/
def repeatGo {α E O Acc AccOut : Type} [ParserError E] (p : ParserFn α E O)
    (red : Reducer α Acc AccOut O) (bounds : RepBounds) (orig : Slice α) :
    Nat → Acc → Nat → Slice α → Slice α → Except E AccOut × Slice α
  | 0, _, _, _, _ =>
    (Except.error (ParserError.from_parser_error orig.off ParserType.Repeat), orig)
  | fuel + 1, res, reps, last, input =>
    if reps = bounds.stop - 1 then
      (Except.ok (red.finalize res orig input), input)
    else
      match p input with
      | (Except.ok val, input') =>
        if input'.off = last.off then
          (Except.error
            (ParserError.add_context
              (ParserError.from_parser_error input.off ParserType.RepeatIter)
              orig.off ParserType.Repeat),
           orig)
        else
          match red.tryReduce res val with
          | Except.error cause =>
            (Except.error
              (ParserError.add_context
                (ParserError.from_external_error input.off ParserType.RepeatIter cause)
                orig.off ParserType.Repeat),
             orig)
          | Except.ok res' => repeatGo p red bounds orig fuel res' (reps + 1) input' input'
      | (Except.error _, input') =>
        if bounds.start ≤ reps ∧ reps < bounds.stop then
          (Except.ok (red.finalize res orig input'), input')
        else
          (Except.error (ParserError.from_parser_error orig.off ParserType.Repeat), orig)

/-- `Repeat::fab`: fail immediately with kind `Repeat` when the range is
empty, else enter the loop with the entry cursor as `last_location`. -/
def repeatFab {α E O Acc AccOut : Type} [ParserError E] (p : ParserFn α E O)
    (red : Reducer α Acc AccOut O) (bounds : RepBounds) : ParserFn α E AccOut :=
  fun s =>
    if bounds.stop ≤ bounds.start then
      (Except.error (ParserError.from_parser_error s.off ParserType.Repeat), s)
    else repeatGo p red bounds s (s.data.length + 2) red.acc 0 s s

/-- The letter branch of the concrete scenario: a lowercase-letter range
parser (`'a'..'z'` style membership test). -/
def letterP {E : Type} [ParserError E] : ParserFn Char E Char :=
  rangeTag (fun c => decide ('a' ≤ c ∧ c ≤ 'z'))

/-- `char::to_digit(10)` on decimal digits, as used by the scenario's
try-map. -/
def digitVal (c : Char) : Option Nat :=
  if '0' ≤ c ∧ c ≤ '9' then some (c.toNat - 48) else none

/-- The digit branch of the concrete scenario: a decimal-digit range parser
try-mapped through `digitVal`. -/
def digitP {E : Type} [ParserError E] : ParserFn Char E Nat :=
  tryMapOptionFab (rangeTag (fun c => decide ('0' ≤ c ∧ c ≤ '9'))) digitVal

/-- The `(letter, digit)` pair parser of the concrete scenario. -/
def charNum {E : Type} [ParserError E] : ParserFn Char E (Char × Nat) :=
  seq2Fab letterP digitP

/-- The `BoolReducer` adapter over a fold function that returns `false` at
`'c'`: on `false` the adapter fails with `TryReducerError`, whose `Display`
is the string `TryReducerFailed`. -/
def boolRed : Reducer Char Unit Unit (Char × Nat) :=
  ⟨(), fun a v => if v.1 = 'c' then Except.error "TryReducerFailed" else Except.ok a,
   fun a _ _ => a⟩

/-- The input `"a1b2c3"` of the concrete scenario (ASCII, so item offsets
are byte offsets). -/
def inputC8 : Slice Char := ⟨0, ['a', '1', 'b', '2', 'c', '3']⟩

/-- The reducer-fails scenario: `char_num.fab_repeat().reduce((), bool_fn)`
run on `"a1b2c3"` with the rich error type and the default repetition
bounds `0..usize::MAX`. -/
def runC8 : Except FabError Unit × Slice Char :=
  repeatFab charNum boolRed ⟨0, usizeMAX⟩ inputC8

/-- The error `runC8` is expected to produce: a `RepeatIter` frame at byte
offset 4 (the start of the rejected iteration), a `Repeat` frame at byte
offset 0 (the repetition start), and the reducer's cause. -/
def errC8 : FabError :=
  ⟨[⟨4, ParserType.RepeatIter⟩, ⟨0, ParserType.Repeat⟩], some "TryReducerFailed"⟩

/-- The error slot of a `Result`, used to collect branch errors. -/
def errPart {E O : Type} : Except E O → Option E
  | Except.error e => some e
  | Except.ok _ => none

/-- The errors the branches of an alt produce on the entry cursor, in
declaration order ("the collected errors"). -/
def errsOf {α E O : Type} (ps : List (ParserFn α E O)) (s : Slice α) : List E :=
  ps.filterMap (fun p => errPart (p s).1)

/-- Fold a list of branch errors through `updateBest`, starting from an
arbitrary best pair. -/
def selFoldFrom {E : Type} [ParserError E] (best : Option Nat × Option E) (errs : List E) :
    Option Nat × Option E :=
  errs.foldl (fun b e => updateBest e b) best

/-- Fold a list of branch errors through `updateBest` from the initial
state, as `alt` does. -/
def selFold {E : Type} [ParserError E] (errs : List E) : Option Nat × Option E :=
  selFoldFrom (none, none) errs

/-- The maximum location among a list of errors (0 when none carries a
location; `Nat.max` has identity 0, so for located errors this is the
maximum location). -/
def maxLocs {E : Type} [ParserError E] (errs : List E) : Nat :=
  (errs.filterMap ParserError.get_loc).foldl max 0

/-- The error of the last branch whose location attains `maxLocs` — the
branch the `>=` comparison of the source selects. -/
def lastMaxErr {E : Type} [ParserError E] (errs : List E) : Option E :=
  (errs.filter (fun e => decide (ParserError.get_loc e = some (maxLocs errs)))).getLast?

/-- An error type in which some errors carry a location and some do not
(the `ParserError` trait makes `get_loc` optional per error value). -/
inductive MixError where
  | located : Nat → MixError
  | bare : MixError
deriving DecidableEq, Repr

instance : ParserError MixError where
  from_parser_error loc _ := MixError.located loc
  from_external_error loc _ _ := MixError.located loc
  get_loc e := match e with | MixError.located n => some n | MixError.bare => none

/-- The spec-side description of the ordered tuple: run the children left to
right threading the cursor; the first failure yields that child's error
unchanged, success yields the outputs in input order with the final
cursor. -/
def runLeftToRight {α E O : Type} :
    List (ParserFn α E O) → Slice α → Except E (List O × Slice α)
  | [], s => Except.ok ([], s)
  | p :: ps, s =>
    match p s with
    | (Except.ok v, s') =>
      (runLeftToRight ps s').map (fun r => (v :: r.1, r.2))
    | (Except.error e, _) => Except.error e

/-- The cursor trace of repeatedly applying a child parser: `childIter p s j`
is the cursor after `j` applications of `p` starting from `s`. -/
def childIter {α E O : Type} (p : ParserFn α E O) (s : Slice α) : Nat → Slice α
  | 0 => s
  | j + 1 => (p (childIter p s j)).2

/-- The child parser succeeds on `s` while strictly advancing the cursor:
the base pointer moves (the progress metric of `repeat.rs`) and the
remaining data strictly shrinks. -/
def StrictStep {α E O : Type} (p : ParserFn α E O) (s : Slice α) : Prop :=
  (∃ v, (p s).1 = Except.ok v) ∧ (p s).2.off ≠ s.off ∧ (p s).2.data.length < s.data.length

/-- Failure is stationary at every cursor: whenever the parser returns an
error, the cursor it leaves equals the entry cursor. -/
def Stationary {α E O : Type} (p : ParserFn α E O) : Prop :=
  ∀ s e s', p s = (Except.error e, s') → s' = s

/-- The parsers built from the library's primitives and combinators:
item/sequence literals, predicate/Option/Result functions, ranges, `Take`,
function parsers, `map`, `try_map` (both forms), `value`, `opt`,
`take_not`, tuples, `alt`, `permutation` and `repeat`. -/
inductive Built {α E : Type} [DecidableEq α] [ParserError E] :
    {O : Type} → ParserFn α E O → Prop where
  | item (x : α) : Built (itemTag x)
  | sliceLit (tag : List α) : Built (sliceTag tag)
  | predFn (f : α → Bool) : Built (predTag f)
  | rangeP (mem : α → Bool) : Built (rangeTag mem)
  | optionFn {β : Type} (f : α → Option β) : Built (optionTag f)
  | resultFn {β : Type} (f : α → Except String β) : Built (resultTag f)
  | takeN (n : Nat) : Built (takeTag (E := E) n)
  | funcP {O : Type} (f : ParserFn α E O) : Built (funcTag f)
  | mapC {M O : Type} {p : ParserFn α E M} (f : M → O) : Built p → Built (mapFab p f)
  | tryMapO {M O : Type} {p : ParserFn α E M} (f : M → Option O) :
      Built p → Built (tryMapOptionFab p f)
  | tryMapR {M O : Type} {p : ParserFn α E M} (f : M → Except String O) :
      Built p → Built (tryMapResultFab p f)
  | valueC {M V : Type} {p : ParserFn α E M} (v : V) : Built p → Built (valueFab p v)
  | optC {O : Type} {p : ParserFn α E O} : Built p → Built (optFab p)
  | takeNotC {O : Type} {p : ParserFn α E O} : Built p → Built (takeNotFab p)
  | seqC {O : Type} (ps : List (ParserFn α E O)) :
      (∀ p ∈ ps, Built p) → Built (seqFab ps)
  | altC {O : Type} (ps : List (ParserFn α E O)) :
      (∀ p ∈ ps, Built p) → Built (altFab ps)
  | permC {O : Type} (ps : List (ParserFn α E O)) :
      (∀ p ∈ ps, Built p) → Built (permFab ps)
  | repeatC {O Acc AccOut : Type} {p : ParserFn α E O}
      (red : Reducer α Acc AccOut O) (bounds : RepBounds) :
      Built p → Built (repeatFab p red bounds)

/-- A branch that fails with a located error (a user function parser may
construct any error value of its error type). -/
def mixP1 : ParserFn Char MixError Unit := fun s => (Except.error (MixError.located 5), s)

/-- A branch that fails with an error carrying no location. -/
def mixP2 : ParserFn Char MixError Unit := fun s => (Except.error MixError.bare, s)

theorem itemTag_stationary {α E : Type} [DecidableEq α] [ParserError E] (x : α) :
    Stationary (itemTag (E := E) x) := by
  intro s e s' h
  unfold itemTag at h
  split at h
  · split at h
    · exact Except.noConfusion (congrArg Prod.fst h)
    · exact (congrArg Prod.snd h).symm
  · exact (congrArg Prod.snd h).symm

theorem sliceTag_stationary {α E : Type} [DecidableEq α] [ParserError E] (tag : List α) :
    Stationary (sliceTag (E := E) tag) := by
  intro s e s' h
  unfold sliceTag at h
  split at h
  · split at h
    · exact Except.noConfusion (congrArg Prod.fst h)
    · exact (congrArg Prod.snd h).symm
  · exact (congrArg Prod.snd h).symm

theorem predTag_stationary {α E : Type} [ParserError E] (f : α → Bool) :
    Stationary (predTag (E := E) f) := by
  intro s e s' h
  unfold predTag at h
  split at h
  · split at h
    · exact Except.noConfusion (congrArg Prod.fst h)
    · exact (congrArg Prod.snd h).symm
  · exact (congrArg Prod.snd h).symm

theorem rangeTag_stationary {α E : Type} [ParserError E] (mem : α → Bool) :
    Stationary (rangeTag (E := E) mem) := by
  intro s e s' h
  unfold rangeTag at h
  split at h
  · split at h
    · exact Except.noConfusion (congrArg Prod.fst h)
    · exact (congrArg Prod.snd h).symm
  · exact (congrArg Prod.snd h).symm

theorem optionTag_stationary {α β E : Type} [ParserError E] (f : α → Option β) :
    Stationary (optionTag (E := E) f) := by
  intro s e s' h
  unfold optionTag at h
  split at h
  · split at h
    · exact Except.noConfusion (congrArg Prod.fst h)
    · exact (congrArg Prod.snd h).symm
  · exact (congrArg Prod.snd h).symm

theorem resultTag_stationary {α β E : Type} [ParserError E] (f : α → Except String β) :
    Stationary (resultTag (E := E) f) := by
  intro s e s' h
  unfold resultTag at h
  split at h
  · split at h
    · exact Except.noConfusion (congrArg Prod.fst h)
    · exact (congrArg Prod.snd h).symm
  · exact (congrArg Prod.snd h).symm

theorem takeTag_stationary {α E : Type} [ParserError E] (n : Nat) :
    Stationary (takeTag (α := α) (E := E) n) := by
  intro s e s' h
  unfold takeTag at h
  split at h
  · exact Except.noConfusion (congrArg Prod.fst h)
  · exact (congrArg Prod.snd h).symm

theorem funcTag_stationary {α E O : Type} (f : ParserFn α E O) :
    Stationary (funcTag f) := by
  intro s e s' h
  unfold funcTag at h
  split at h
  · exact Except.noConfusion (congrArg Prod.fst h)
  · exact (congrArg Prod.snd h).symm

theorem mapFab_stationary {α E M O : Type} [ParserError E] {p : ParserFn α E M}
    (f : M → O) (hp : Stationary p) : Stationary (mapFab p f) := by
  intro s e s' h
  unfold mapFab at h
  split at h
  · exact Except.noConfusion (congrArg Prod.fst h)
  · next e₂ s₂ heq =>
    have h₂ : s₂ = s' := congrArg Prod.snd h
    rw [← h₂]
    exact hp s e₂ s₂ heq

theorem tryMapOptionFab_stationary {α E M O : Type} [ParserError E] {p : ParserFn α E M}
    (f : M → Option O) (hp : Stationary p) : Stationary (tryMapOptionFab p f) := by
  intro s e s' h
  unfold tryMapOptionFab at h
  split at h
  · split at h
    · exact Except.noConfusion (congrArg Prod.fst h)
    · exact (congrArg Prod.snd h).symm
  · next e₂ s₂ heq =>
    have h₂ : s₂ = s' := congrArg Prod.snd h
    rw [← h₂]
    exact hp s e₂ s₂ heq

theorem tryMapResultFab_stationary {α E M O : Type} [ParserError E] {p : ParserFn α E M}
    (f : M → Except String O) (hp : Stationary p) : Stationary (tryMapResultFab p f) := by
  intro s e s' h
  unfold tryMapResultFab at h
  split at h
  · split at h
    · exact Except.noConfusion (congrArg Prod.fst h)
    · exact (congrArg Prod.snd h).symm
  · next e₂ s₂ heq =>
    have h₂ : s₂ = s' := congrArg Prod.snd h
    rw [← h₂]
    exact hp s e₂ s₂ heq

theorem valueFab_stationary {α E O V : Type} [ParserError E] {p : ParserFn α E O}
    (v : V) (hp : Stationary p) : Stationary (valueFab p v) := by
  intro s e s' h
  unfold valueFab at h
  split at h
  · exact Except.noConfusion (congrArg Prod.fst h)
  · next e₂ s₂ heq =>
    have h₂ : s₂ = s' := congrArg Prod.snd h
    rw [← h₂]
    exact hp s e₂ s₂ heq

theorem optFab_stationary {α E O : Type} (p : ParserFn α E O) :
    Stationary (optFab p) := by
  intro s e s' h
  unfold optFab at h
  split at h
  · exact Except.noConfusion (congrArg Prod.fst h)
  · exact Except.noConfusion (congrArg Prod.fst h)

theorem takeNotFab_stationary {α E O : Type} [ParserError E] (p : ParserFn α E O) :
    Stationary (takeNotFab p) := by
  intro s e s' h
  unfold takeNotFab at h
  split at h
  · exact (congrArg Prod.snd h).symm
  · split at h
    · exact Except.noConfusion (congrArg Prod.fst h)
    · exact (congrArg Prod.snd h).symm

theorem seqGo_err {α E O : Type} (s₀ : Slice α) (ps : List (ParserFn α E O)) :
    ∀ s e s', seqGo s₀ ps s = (Except.error e, s') → s' = s₀ := by
  induction ps with
  | nil =>
    intro s e s' h
    exact Except.noConfusion (congrArg Prod.fst h)
  | cons p ps ih =>
    intro s e s' h
    unfold seqGo at h
    split at h
    · split at h
      · exact Except.noConfusion (congrArg Prod.fst h)
      · next e₂ s₂ heq =>
        have h₂ : s₂ = s' := congrArg Prod.snd h
        rw [← h₂]
        exact ih _ _ _ heq
    · exact (congrArg Prod.snd h).symm

theorem seqFab_stationary {α E O : Type} (ps : List (ParserFn α E O)) :
    Stationary (seqFab ps) := by
  intro s e s' h
  exact seqGo_err s ps s e s' h

theorem altGo_err {α E O : Type} [ParserError E] (startloc : Slice α) :
    ∀ (ps : List (ParserFn α E O)) best e s',
      altGo startloc best ps = (Except.error e, s') → s' = startloc := by
  intro ps
  induction ps with
  | nil =>
    intro best e s' h
    exact (congrArg Prod.snd h).symm
  | cons p ps ih =>
    intro best e s' h
    unfold altGo at h
    split at h
    · exact Except.noConfusion (congrArg Prod.fst h)
    · exact ih _ _ _ h

theorem altFab_stationary {α E O : Type} [ParserError E] (ps : List (ParserFn α E O)) :
    Stationary (altFab ps) := by
  intro s e s' h
  exact altGo_err s ps (none, none) e s' h

theorem permLoop_err {α E O : Type} [ParserError E] (outerStart : Slice α) :
    ∀ fuel (prs : List (ParserFn α E O × Option O)) input e s',
      permLoop fuel prs input outerStart = (Except.error e, s') → s' = outerStart := by
  intro fuel
  induction fuel with
  | zero =>
    intro prs input e s' h
    exact (congrArg Prod.snd h).symm
  | succ fuel ih =>
    intro prs input e s' h
    unfold permLoop at h
    split at h
    · exact Except.noConfusion (congrArg Prod.fst h)
    · split at h
      · exact ih _ _ _ _ h
      · exact (congrArg Prod.snd h).symm

theorem permFab_stationary {α E O : Type} [ParserError E] (ps : List (ParserFn α E O)) :
    Stationary (permFab ps) := by
  intro s e s' h
  exact permLoop_err s (ps.length + 1) _ s e s' h

theorem repeatGo_err {α E O Acc AccOut : Type} [ParserError E] (p : ParserFn α E O)
    (red : Reducer α Acc AccOut O) (bounds : RepBounds) (orig : Slice α) :
    ∀ fuel res reps last input e s',
      repeatGo p red bounds orig fuel res reps last input = (Except.error e, s') →
      s' = orig := by
  intro fuel
  induction fuel with
  | zero =>
    intro res reps last input e s' h
    exact (congrArg Prod.snd h).symm
  | succ fuel ih =>
    intro res reps last input e s' h
    unfold repeatGo at h
    split at h
    · exact Except.noConfusion (congrArg Prod.fst h)
    · split at h
      · split at h
        · exact (congrArg Prod.snd h).symm
        · split at h
          · exact (congrArg Prod.snd h).symm
          · exact ih _ _ _ _ _ _ h
      · split at h
        · exact Except.noConfusion (congrArg Prod.fst h)
        · exact (congrArg Prod.snd h).symm

theorem repeatFab_stationary {α E O Acc AccOut : Type} [ParserError E] (p : ParserFn α E O)
    (red : Reducer α Acc AccOut O) (bounds : RepBounds) :
    Stationary (repeatFab p red bounds) := by
  intro s e s' h
  unfold repeatFab at h
  split at h
  · exact (congrArg Prod.snd h).symm
  · exact repeatGo_err p red bounds s _ _ _ _ _ _ _ h

/-- Every parser built from the library's primitives and combinators is
stationary on failure. -/
theorem built_stationary {α E : Type} [DecidableEq α] [ParserError E] {O : Type}
    {p : ParserFn α E O} (hb : Built p) : Stationary p := by
  induction hb with
  | item x => exact itemTag_stationary x
  | sliceLit tag => exact sliceTag_stationary tag
  | predFn f => exact predTag_stationary f
  | rangeP mem => exact rangeTag_stationary mem
  | optionFn f => exact optionTag_stationary f
  | resultFn f => exact resultTag_stationary f
  | takeN n => exact takeTag_stationary n
  | funcP f => exact funcTag_stationary f
  | mapC f _ ih => exact mapFab_stationary f ih
  | tryMapO f _ ih => exact tryMapOptionFab_stationary f ih
  | tryMapR f _ ih => exact tryMapResultFab_stationary f ih
  | valueC v _ ih => exact valueFab_stationary v ih
  | optC _ => exact optFab_stationary _
  | takeNotC _ => exact takeNotFab_stationary _
  | seqC ps _ => exact seqFab_stationary ps
  | altC ps _ => exact altFab_stationary ps
  | permC ps _ => exact permFab_stationary ps
  | repeatC red bounds _ => exact repeatFab_stationary _ red bounds

/-- C1: Failure is stationary: for every parser built from the library's
primitives and combinators (item/sequence literals, predicate/Option/Result
functions, range, Take, function parsers, map, try_map, value, opt,
take_not, tuples, alt, permutation, repeat), if `fab` returns an error then
the cursor reference equals the entry cursor (same base offset and same
remaining data). -/
theorem c1_failure_stationary {α E : Type} [DecidableEq α] [ParserError E] {O : Type}
    {p : ParserFn α E O} (hb : Built p) (s : Slice α) (e : E) (s' : Slice α)
    (h : p s = (Except.error e, s')) : s' = s :=
  built_stationary hb s e s' h

theorem c1_failure_stationary_witness :
    (itemTag (E := FabError) 'a' ⟨0, ['b']⟩).2 = (⟨0, ['b']⟩ : Slice Char) :=
  c1_failure_stationary (Built.item 'a') ⟨0, ['b']⟩
    (FabError.from_parser_error 0 ParserType.Tag)
    (itemTag (E := FabError) 'a' ⟨0, ['b']⟩).2 rfl

theorem seqGo_spec {α E O : Type} (s₀ : Slice α) (ps : List (ParserFn α E O)) :
    ∀ s, seqGo s₀ ps s =
      match runLeftToRight ps s with
      | Except.ok r => (Except.ok r.1, r.2)
      | Except.error e => (Except.error e, s₀) := by
  induction ps with
  | nil => intro s; rfl
  | cons p ps ih =>
    intro s
    rcases hps : p s with ⟨r, s₁⟩
    rcases r with e | v
    · simp only [seqGo, runLeftToRight, hps]
    · simp only [seqGo, runLeftToRight, hps, ih s₁]
      rcases hr : runLeftToRight ps s₁ with e | rr
      · simp only [Except.map]
      · simp only [Except.map]

/-- C5: Tuple sequencing: a tuple of parsers runs its children left to
right; on the first child failure the cursor is rewound to the tuple's
entry position and that inner error is returned unchanged; on success the
result is the children's outputs in input order (the spec-side behaviour is
`runLeftToRight`). -/
theorem c5_tuple_sequencing {α E O : Type} (ps : List (ParserFn α E O)) (s : Slice α) :
    seqFab ps s =
      match runLeftToRight ps s with
      | Except.ok r => (Except.ok r.1, r.2)
      | Except.error e => (Except.error e, s) :=
  seqGo_spec s ps s

/-- C6 (amended): on failure of `p`, `map(p, f)` and `value(p, v)` return
`p`'s error with one `Map` context frame pushed via `add_context` at the
cursor `p` left (for the trivial error `add_context` is the identity, so
the error is passed through unchanged; the rich error gains a `Map` frame);
on success `map` returns `f(value)` and `value` returns a clone of `v`,
with no cursor effect beyond `p`'s. -/
theorem c6_map_value_amended {α E M O V : Type} [ParserError E]
    (p : ParserFn α E M) (f : M → O) (v : V) (s : Slice α) :
    (∀ w s', p s = (Except.ok w, s') →
      mapFab p f s = (Except.ok (f w), s') ∧ valueFab p v s = (Except.ok v, s'))
    ∧ (∀ e s', p s = (Except.error e, s') →
      mapFab p f s = (Except.error (ParserError.add_context e s'.off ParserType.Map), s')
      ∧ valueFab p v s = (Except.error (ParserError.add_context e s'.off ParserType.Map), s')) := by
  constructor
  · intro w s' h
    constructor <;> simp only [mapFab, valueFab, h]
  · intro e s' h
    constructor <;> simp only [mapFab, valueFab, h]

theorem c6_map_value_witness :
    mapFab (E := FabError) (itemTag 'a') (fun c => c) ⟨0, ['x']⟩
      = (Except.error ⟨[⟨0, ParserType.Tag⟩, ⟨0, ParserType.Map⟩], none⟩,
         (⟨0, ['x']⟩ : Slice Char)) :=
  ((c6_map_value_amended (itemTag 'a') (fun c => c) (5 : Nat) ⟨0, ['x']⟩).2
    (FabError.from_parser_error 0 ParserType.Tag) ⟨0, ['x']⟩ rfl).1

/-- C6 counterexample: with the rich error type, `map` does not return the
child's error unchanged — a `Map` frame is added. -/
theorem c6_map_value_counterexample :
    (itemTag (E := FabError) 'a' ⟨0, ['x']⟩).1
        = Except.error ⟨[⟨0, ParserType.Tag⟩], none⟩
    ∧ (mapFab (E := FabError) (itemTag 'a') (fun c => c) ⟨0, ['x']⟩).1
        = Except.error ⟨[⟨0, ParserType.Tag⟩, ⟨0, ParserType.Map⟩], none⟩
    ∧ (⟨[⟨0, ParserType.Tag⟩, ⟨0, ParserType.Map⟩], none⟩ : FabError)
        ≠ ⟨[⟨0, ParserType.Tag⟩], none⟩ :=
  ⟨rfl, rfl, by decide⟩

/-- C7: Opt totality: for every library-built parser `p` and every cursor,
`opt(p).fab` never returns an error; when `p` succeeds it returns `some` of
`p`'s output with `p`'s cursor, and when `p` fails it returns `ok none`
with the cursor equal to the entry cursor. -/
theorem c7_opt_totality {α E O : Type} [DecidableEq α] [ParserError E]
    {p : ParserFn α E O} (hb : Built p) (s : Slice α) :
    (∃ r s', optFab p s = (Except.ok r, s'))
    ∧ (∀ v s', p s = (Except.ok v, s') → optFab p s = (Except.ok (some v), s'))
    ∧ (∀ e s', p s = (Except.error e, s') → optFab p s = (Except.ok none, s)) := by
  refine ⟨?_, ?_, ?_⟩
  · rcases hps : p s with ⟨r, s₁⟩
    rcases r with e | v
    · exact ⟨none, s₁, by simp only [optFab, hps]⟩
    · exact ⟨some v, s₁, by simp only [optFab, hps]⟩
  · intro v s' h
    simp only [optFab, h]
  · intro e s' h
    have hst : s' = s := built_stationary hb s e s' h
    subst hst
    simp only [optFab, h]

theorem c7_opt_totality_witness :
    optFab (E := FabError) (itemTag 'a') ⟨0, ['z']⟩
      = (Except.ok none, (⟨0, ['z']⟩ : Slice Char)) :=
  (c7_opt_totality (Built.item 'a') ⟨0, ['z']⟩).2.2
    (FabError.from_parser_error 0 ParserType.Tag) ⟨0, ['z']⟩ rfl

/-- C4: Repeat non-regression: whenever an iteration of the `Repeat` loop
(entered whenever the repetition cap has not been reached) sees its child
succeed with zero progress relative to the previous iteration
(`last_location`), the loop immediately terminates and fails — the cursor
is restored to the `Repeat` entry `orig` and the error is a `RepeatIter`
error (at the stalled iteration's start) with a `Repeat` frame attached at
the entry location — rather than looping forever. -/
theorem c4_repeat_nonregression {α O Acc AccOut : Type} (p : ParserFn α FabError O)
    (red : Reducer α Acc AccOut O) (bounds : RepBounds) (orig : Slice α)
    (fuel : Nat) (res : Acc) (reps : Nat) (last input input' : Slice α) (v : O)
    (hfuel : fuel ≠ 0) (hcap : reps ≠ bounds.stop - 1)
    (hok : p input = (Except.ok v, input')) (hstall : input'.off = last.off) :
    repeatGo p red bounds orig fuel res reps last input =
      (Except.error
        ⟨[⟨input.off, ParserType.RepeatIter⟩, ⟨orig.off, ParserType.Repeat⟩], none⟩,
       orig) := by
  cases fuel with
  | zero => exact absurd rfl hfuel
  | succ fuel =>
    unfold repeatGo
    rw [if_neg hcap]
    simp only [hok]
    rw [if_pos hstall]
    rfl

theorem c4_repeat_nonregression_witness :
    repeatGo (optFab (itemTag (E := FabError) 'b')) vecRed (⟨0, usizeMAX⟩ : RepBounds)
        (⟨0, ['a']⟩ : Slice Char) 3 [] 0 ⟨0, ['a']⟩ ⟨0, ['a']⟩
      = (Except.error
          ⟨[⟨0, ParserType.RepeatIter⟩, ⟨0, ParserType.Repeat⟩], none⟩,
         (⟨0, ['a']⟩ : Slice Char)) :=
  c4_repeat_nonregression (optFab (itemTag (E := FabError) 'b')) vecRed
    (⟨0, usizeMAX⟩ : RepBounds) (⟨0, ['a']⟩ : Slice Char)
    3 [] 0 ⟨0, ['a']⟩ ⟨0, ['a']⟩ ⟨0, ['a']⟩ none
    (by decide) (by decide) rfl rfl

theorem fabError_add_context_stack_ne (e : FabError) (loc : Nat) (k : ParserType) :
    (e.add_context loc k).stack ≠ [] := by
  simp [FabError.add_context]

theorem fabError_add_context_get_loc (e : FabError) (loc : Nat) (k : ParserType)
    (hne : e.stack ≠ []) : (e.add_context loc k).get_loc = e.get_loc := by
  rcases hs : e.stack with _ | ⟨f, fs⟩
  · exact absurd hs hne
  · simp [FabError.add_context, FabError.get_loc, hs]

theorem fabError_foldl_get_loc (ctxs : List (Nat × ParserType)) :
    ∀ e : FabError, e.stack ≠ [] →
      (ctxs.foldl (fun a c => a.add_context c.1 c.2) e).get_loc = e.get_loc := by
  induction ctxs with
  | nil => intro e _; rfl
  | cons c ctxs ih =>
    intro e hne
    have hstep : List.foldl (fun a c => a.add_context c.1 c.2) e (c :: ctxs)
        = List.foldl (fun a c => a.add_context c.1 c.2) (e.add_context c.1 c.2) ctxs := rfl
    rw [hstep, ih _ (fabError_add_context_stack_ne e c.1 c.2),
      fabError_add_context_get_loc e c.1 c.2 hne]

/-- C10: Rich-error location is the leaf location: for every `FabError`,
`get_loc` returns the location of the first frame the error was created
with (the innermost failure), and `add_context` pushes a new frame without
ever changing the result of `get_loc` — so the furthest-progress selection
compares original failure positions even after combinators push boundary
frames. -/
theorem c10_get_loc_leaf :
    (∀ (loc : Nat) (k : ParserType) (ctxs : List (Nat × ParserType)),
      (ctxs.foldl (fun a c => a.add_context c.1 c.2)
        (FabError.from_parser_error loc k)).get_loc = some loc)
    ∧ (∀ (loc : Nat) (k : ParserType) (cause : String) (ctxs : List (Nat × ParserType)),
      (ctxs.foldl (fun a c => a.add_context c.1 c.2)
        (FabError.from_external_error loc k cause)).get_loc = some loc)
    ∧ (∀ (e : FabError) (loc : Nat) (k : ParserType), e.stack ≠ [] →
      (e.add_context loc k).get_loc = e.get_loc) := by
  refine ⟨?_, ?_, fabError_add_context_get_loc⟩
  · intro loc k ctxs
    rw [fabError_foldl_get_loc ctxs (FabError.from_parser_error loc k) (by simp [FabError.from_parser_error])]
    rfl
  · intro loc k cause ctxs
    rw [fabError_foldl_get_loc ctxs (FabError.from_external_error loc k cause) (by simp [FabError.from_external_error])]
    rfl

theorem c10_get_loc_leaf_witness :
    ([((5 : Nat), ParserType.Map)].foldl (fun a c => a.add_context c.1 c.2)
      (FabError.from_parser_error 3 ParserType.Tag)).get_loc = some 3 :=
  c10_get_loc_leaf.1 3 ParserType.Tag [((5 : Nat), ParserType.Map)]

theorem altGo_fold {α E O : Type} [ParserError E] (s : Slice α) :
    ∀ (ps : List (ParserFn α E O)) best,
      (∀ p ∈ ps, ∃ e, (p s).1 = Except.error e) →
      altGo s best ps =
        (Except.error ((selFoldFrom best (errsOf ps s)).2.getD
          (ParserError.from_parser_error s.off ParserType.Alt)), s) := by
  intro ps
  induction ps with
  | nil => intro best _; rfl
  | cons p ps ih =>
    intro best hfail
    obtain ⟨e, he⟩ := hfail p (List.mem_cons_self p ps)
    rcases hps : p s with ⟨r, s₁⟩
    rw [hps] at he
    have he' : r = Except.error e := he
    subst he'
    have herrs : errsOf (p :: ps) s = e :: errsOf ps s := by
      simp [errsOf, List.filterMap_cons, hps, errPart]
    rw [herrs]
    have hstep : altGo s best (p :: ps) = altGo s (updateBest e best) ps := by
      simp only [altGo, hps]
    rw [hstep, ih (updateBest e best) (fun q hq => hfail q (List.mem_cons_of_mem p hq))]
    rfl

theorem selFold_located {E : Type} [ParserError E] (errs : List E) :
    errs ≠ [] →
    (∀ e ∈ errs, (ParserError.get_loc e).isSome) →
    selFold errs = (some (maxLocs errs), lastMaxErr errs)
    ∧ ∃ em, lastMaxErr errs = some em ∧ ParserError.get_loc em = some (maxLocs errs) := by
  induction errs using List.reverseRecOn with
  | nil => intro h _; exact absurd rfl h
  | append_singleton es e ih =>
    intro _ hloc
    have hle : (ParserError.get_loc e).isSome := hloc e (by simp)
    obtain ⟨L, hL⟩ : ∃ L, ParserError.get_loc e = some L := by
      rcases hE : ParserError.get_loc e with _ | L
      · rw [hE] at hle; exact absurd hle (by simp)
      · exact ⟨L, rfl⟩
    by_cases hesnil : es = []
    · subst hesnil
      have hm : maxLocs [e] = L := by
        simp [maxLocs, hL]
      have hsel : selFold [e] = (some L, some e) := by
        simp [selFold, selFoldFrom, updateBest, hL]
      have hlast : lastMaxErr [e] = some e := by
        simp [lastMaxErr, hm, hL]
      rw [List.nil_append]
      exact ⟨by rw [hsel, hm, hlast], e, hlast, by rw [hm, hL]⟩
    · have hloces : ∀ x ∈ es, (ParserError.get_loc x).isSome := by
        intro x hx
        exact hloc x (by simp [hx])
      obtain ⟨hselES, em, hemlast, hemloc⟩ := ih hesnil hloces
      have hmax : maxLocs (es ++ [e]) = max (maxLocs es) L := by
        simp [maxLocs, List.filterMap_append, hL, List.foldl_append]
      have hsel : selFold (es ++ [e]) = updateBest e (selFold es) := by
        simp [selFold, selFoldFrom, List.foldl_append]
      by_cases hcmp : maxLocs es ≤ L
      · have hub : updateBest e (selFold es) = (some L, some e) := by
          rw [hselES]
          simp [updateBest, hL, hcmp]
        have hmaxeq : maxLocs (es ++ [e]) = L := by
          rw [hmax]; exact Nat.max_eq_right hcmp
        have hlast : lastMaxErr (es ++ [e]) = some e := by
          unfold lastMaxErr
          rw [hmaxeq, List.filter_append]
          have hfe : List.filter (fun x => decide (ParserError.get_loc x = some L)) [e] = [e] := by
            simp [hL]
          rw [hfe, List.getLast?_concat]
        exact ⟨by rw [hsel, hub, hmaxeq, hlast], e, hlast, by rw [hmaxeq, hL]⟩
      · have hub : updateBest e (selFold es) = (some (maxLocs es), lastMaxErr es) := by
          rw [hselES]
          simp [updateBest, hL, hcmp]
        have hmaxeq : maxLocs (es ++ [e]) = maxLocs es := by
          rw [hmax]
          exact Nat.max_eq_left (Nat.le_of_lt (Nat.lt_of_not_le hcmp))
        have hLM : L ≠ maxLocs es := by omega
        have hlast : lastMaxErr (es ++ [e]) = lastMaxErr es := by
          unfold lastMaxErr
          rw [hmaxeq, List.filter_append]
          have hfe : List.filter
              (fun x => decide (ParserError.get_loc x = some (maxLocs es))) [e] = [] := by
            simp [hL, hLM]
          rw [hfe, List.append_nil]
        refine ⟨by rw [hsel, hub, hmaxeq, hlast], em, by rw [hlast, hemlast], ?_⟩
        rw [hmaxeq]
        exact hemloc

theorem errsOf_ne_nil {α E O : Type} [ParserError E] (p : ParserFn α E O)
    (ps : List (ParserFn α E O)) (s : Slice α)
    (he : ∃ e, (p s).1 = Except.error e) :
    errsOf (p :: ps) s ≠ [] := by
  obtain ⟨e, he⟩ := he
  simp [errsOf, List.filterMap_cons, he, errPart]

/-- C2 (amended): for every alt whose branches all fail on the entry cursor
and whose collected errors all carry a location, alt fails (cursor restored
to entry) and the returned error's location equals the maximum location
among the collected branch errors. -/
theorem c2_alt_furthest_progress_amended {α E O : Type} [ParserError E]
    (ps : List (ParserFn α E O)) (s : Slice α) (hne : ps ≠ [])
    (hfail : ∀ p ∈ ps, ∃ e, (p s).1 = Except.error e)
    (hloc : ∀ e ∈ errsOf ps s, (ParserError.get_loc e).isSome) :
    ∃ e, altFab ps s = (Except.error e, s)
      ∧ ParserError.get_loc e = some (maxLocs (errsOf ps s)) := by
  have hfold := altGo_fold s ps (none, none) hfail
  have herrne : errsOf ps s ≠ [] := by
    rcases ps with _ | ⟨p, ps⟩
    · exact absurd rfl hne
    · exact errsOf_ne_nil p ps s (hfail p (List.mem_cons_self p ps))
  obtain ⟨hsel, em, hemlast, hemloc⟩ := selFold_located (errsOf ps s) herrne hloc
  refine ⟨em, ?_, hemloc⟩
  have halt : altFab ps s = altGo s (none, none) ps := rfl
  rw [halt, hfold]
  have h2 : (selFoldFrom (none, none) (errsOf ps s)).2 = some em := by
    have hss : selFoldFrom (none, none) (errsOf ps s) = selFold (errsOf ps s) := rfl
    rw [hss, hsel]
    exact hemlast
  rw [h2]
  rfl

theorem c2_alt_furthest_progress_witness :
    ∃ e, altFab (E := FabError) [itemTag 'a', itemTag 'b'] ⟨0, ['z']⟩
        = (Except.error e, (⟨0, ['z']⟩ : Slice Char))
      ∧ ParserError.get_loc e
          = some (maxLocs (errsOf (E := FabError) [itemTag 'a', itemTag 'b'] ⟨0, ['z']⟩)) :=
  c2_alt_furthest_progress_amended [itemTag 'a', itemTag 'b'] ⟨0, ['z']⟩
    (by simp)
    (by
      intro p hp
      rcases List.mem_cons.mp hp with rfl | hp
      · exact ⟨FabError.from_parser_error 0 ParserType.Tag, rfl⟩
      rcases List.mem_cons.mp hp with rfl | hp
      · exact ⟨FabError.from_parser_error 0 ParserType.Tag, rfl⟩
      · exact absurd hp (List.not_mem_nil p))
    (by decide)

/-- C2 counterexample: two failing branches, the first located at 5, the
second without a location: alt returns the unlocated error, whose location
is not the maximum location 5 among the collected errors. -/
theorem c2_alt_furthest_progress_counterexample :
    errsOf [mixP1, mixP2] ⟨0, ['x']⟩ = [MixError.located 5, MixError.bare]
    ∧ maxLocs (errsOf [mixP1, mixP2] ⟨0, ['x']⟩) = 5
    ∧ altFab [mixP1, mixP2] ⟨0, ['x']⟩ = (Except.error MixError.bare, ⟨0, ['x']⟩)
    ∧ ParserError.get_loc MixError.bare ≠ some 5 :=
  ⟨rfl, rfl, rfl, by decide⟩

/-- C9: Alt tie-break is last-wins: when all branches fail and every
collected error carries a location, the error alt returns is that of the
last branch whose location attains the maximum (the selection comparison
accepts a new location greater than or equal to the current best). -/
theorem c9_alt_tiebreak_last_wins {α E O : Type} [ParserError E]
    (ps : List (ParserFn α E O)) (s : Slice α) (hne : ps ≠ [])
    (hfail : ∀ p ∈ ps, ∃ e, (p s).1 = Except.error e)
    (hloc : ∀ e ∈ errsOf ps s, (ParserError.get_loc e).isSome) :
    ∃ e, altFab ps s = (Except.error e, s)
      ∧ lastMaxErr (errsOf ps s) = some e := by
  have hfold := altGo_fold s ps (none, none) hfail
  have herrne : errsOf ps s ≠ [] := by
    rcases ps with _ | ⟨p, ps⟩
    · exact absurd rfl hne
    · exact errsOf_ne_nil p ps s (hfail p (List.mem_cons_self p ps))
  obtain ⟨hsel, em, hemlast, hemloc⟩ := selFold_located (errsOf ps s) herrne hloc
  refine ⟨em, ?_, hemlast⟩
  have halt : altFab ps s = altGo s (none, none) ps := rfl
  rw [halt, hfold]
  have h2 : (selFoldFrom (none, none) (errsOf ps s)).2 = some em := by
    have hss : selFoldFrom (none, none) (errsOf ps s) = selFold (errsOf ps s) := rfl
    rw [hss, hsel]
    exact hemlast
  rw [h2]
  rfl

theorem c9_alt_tiebreak_last_wins_witness :
    ∃ e, altFab (E := FabError) [itemTag 'a', takeNotFab (itemTag 'b')] ⟨0, ['b']⟩
        = (Except.error e, (⟨0, ['b']⟩ : Slice Char))
      ∧ lastMaxErr (errsOf (E := FabError) [itemTag 'a', takeNotFab (itemTag 'b')] ⟨0, ['b']⟩)
          = some e :=
  c9_alt_tiebreak_last_wins [itemTag 'a', takeNotFab (itemTag 'b')] ⟨0, ['b']⟩
    (by simp)
    (by
      intro p hp
      rcases List.mem_cons.mp hp with rfl | hp
      · exact ⟨FabError.from_parser_error 0 ParserType.Tag, rfl⟩
      rcases List.mem_cons.mp hp with rfl | hp
      · exact ⟨FabError.from_parser_error 0 ParserType.TakeNot, rfl⟩
      · exact absurd hp (List.not_mem_nil p))
    (by decide)

theorem repeatGo_count {α E O : Type} [ParserError E] (p : ParserFn α E O)
    (bounds : RepBounds) (s : Slice α) :
    ∀ d reps fuel,
      reps + d = bounds.stop - 1 →
      (∀ j, j < bounds.stop - 1 → StrictStep p (childIter p s j)) →
      (childIter p s reps).data.length + 1 ≤ fuel →
      repeatGo p cntRed bounds s fuel reps reps (childIter p s reps) (childIter p s reps)
        = (Except.ok (bounds.stop - 1), childIter p s (bounds.stop - 1)) := by
  intro d
  induction d with
  | zero =>
    intro reps fuel hsum H hfuel
    have hreps : reps = bounds.stop - 1 := by omega
    cases fuel with
    | zero => omega
    | succ fuel =>
      unfold repeatGo
      rw [if_pos hreps, hreps]
      rfl
  | succ d ih =>
    intro reps fuel hsum H hfuel
    have hlt : reps < bounds.stop - 1 := by omega
    have hne : reps ≠ bounds.stop - 1 := by omega
    obtain ⟨⟨v, hv⟩, hoff, hlen⟩ := H reps hlt
    have hstep : p (childIter p s reps) = (Except.ok v, childIter p s (reps + 1)) := by
      rcases hpx : p (childIter p s reps) with ⟨r, s₂⟩
      rw [hpx] at hv
      have hr : r = Except.ok v := hv
      subst hr
      have h2 : childIter p s (reps + 1) = s₂ := by
        show (p (childIter p s reps)).2 = s₂
        rw [hpx]
      rw [h2]
    have hoff' : (childIter p s (reps + 1)).off ≠ (childIter p s reps).off := hoff
    have hlen' : (childIter p s (reps + 1)).data.length < (childIter p s reps).data.length :=
      hlen
    cases fuel with
    | zero => omega
    | succ fuel =>
      unfold repeatGo
      rw [if_neg hne]
      simp only [hstep]
      rw [if_neg hoff']
      have hred : (cntRed (α := α) (O := O)).tryReduce reps v = Except.ok (reps + 1) := rfl
      simp only [hred]
      exact ih (reps + 1) fuel (by omega) H (by omega)

/-- C3 (amended): for a `Repeat` parser over a nonempty range `[lo, hi)`
whose child keeps succeeding while strictly advancing the cursor along the
run, the repetition loop succeeds exactly when the repetition count reaches
`hi - 1` (the greatest count inside the exclusive bound): the child is
applied, and the reducer folded, `hi - 1` times before the reducer is
finalized (`cntRed` counts the folds). -/
theorem c3_repeat_upper_bound_amended {α E O : Type} [ParserError E]
    (p : ParserFn α E O) (bounds : RepBounds) (s : Slice α)
    (hne : bounds.start < bounds.stop)
    (H : ∀ j, j < bounds.stop - 1 → StrictStep p (childIter p s j)) :
    repeatFab p cntRed bounds s
      = (Except.ok (bounds.stop - 1), childIter p s (bounds.stop - 1)) := by
  unfold repeatFab
  rw [if_neg (by omega)]
  exact repeatGo_count p bounds s (bounds.stop - 1) 0 (s.data.length + 2) (by omega) H
    (by show s.data.length + 1 ≤ s.data.length + 2; omega)

theorem c3_repeat_upper_bound_witness :
    repeatFab (E := FabError) (predTag (fun _ => true)) cntRed ⟨0, 3⟩ ⟨0, ['a', 'b', 'c', 'd']⟩
      = (Except.ok 2, (⟨2, ['c', 'd']⟩ : Slice Char)) :=
  c3_repeat_upper_bound_amended (predTag (fun _ => true)) ⟨0, 3⟩ ⟨0, ['a', 'b', 'c', 'd']⟩
    (by decide)
    (by
      intro j hj
      have hj' : j < 2 := hj
      interval_cases j
      · exact ⟨⟨'a', rfl⟩, by decide, by decide⟩
      · exact ⟨⟨'b', rfl⟩, by decide, by decide⟩)

/-- C3 counterexample: with the exclusive upper bound `hi = 2` and a child
(`'a'` on `"aaaa"`) that always succeeds while strictly advancing, the loop
finalizes after one application (count 1 = `hi - 1`), not after `hi = 2`
applications as the claim states. -/
theorem c3_repeat_upper_bound_counterexample :
    repeatFab (E := FabError) (itemTag 'a') cntRed ⟨0, 2⟩ ⟨0, ['a', 'a', 'a', 'a']⟩
      = (Except.ok 1, (⟨1, ['a', 'a', 'a']⟩ : Slice Char))
    ∧ (repeatFab (E := FabError) (itemTag 'a') cntRed ⟨0, 2⟩ ⟨0, ['a', 'a', 'a', 'a']⟩).1
      ≠ Except.ok 2 :=
  ⟨rfl, by
    intro hcon
    have h1 : (repeatFab (E := FabError) (itemTag 'a') cntRed ⟨0, 2⟩
        ⟨0, ['a', 'a', 'a', 'a']⟩).1 = Except.ok 1 := rfl
    rw [h1] at hcon
    simp at hcon⟩

/-- C8 (amended): the reducer-fails run on `"a1b2c3"` returns the error
whose trace renders a `Repeat`-kind frame at byte offset 0 (the repetition
start) and a `RepeatIter`-kind frame at byte offset 4 (the start of the
rejected iteration), plus a `From cause [TryReducerFailed]` line, and
leaves the cursor at `"a1b2c3"`. -/
theorem c8_reducer_trace_amended :
    runC8 = (Except.error errC8, inputC8)
    ∧ errC8.traceView
        = ([(0, ParserType.Repeat), (4, ParserType.RepeatIter)], some "TryReducerFailed") :=
  ⟨rfl, rfl⟩

/-- C8 counterexample: the two rendered frames are not both `Repeat`-kind
(the offset-4 frame is `RepeatIter`), and the cause line's text is
`TryReducerFailed`, not `ReducerFailed`. -/
theorem c8_reducer_trace_counterexample :
    runC8.1 = Except.error errC8
    ∧ errC8.traceView.1.map Prod.snd ≠ [ParserType.Repeat, ParserType.Repeat]
    ∧ errC8.cause ≠ some "ReducerFailed"
    ∧ runC8.2 = inputC8 :=
  ⟨rfl, by decide, by decide, rfl⟩
